import Mathlib

/-!
Verification of the expression-state and formatting core of the
CalculadoraCientifica repository
(src/CalculadoraCientifica/client/src/pages/calculator.tsx).

The JS `number` type is modelled as `Option ℚ`: `some q` is a finite value
(float rounding is not modelled; arithmetic is exact), `none` is a non-finite
value (`NaN`, `±Infinity`).  External collaborators that are not part of the
repository (the mathjs `evaluate` and `format` functions, the ECMAScript
built-ins `toExponential`, `parseFloat`, `trim`, `toString`) are modelled from
the specification's description of them; every such definition carries a
`Modelled from the spec` doc comment.  Everything else is translated directly
from the source file.
-/

attribute [local semireducible] Rat.add Rat.mul Rat.sub Rat.inv

namespace CalcSpec

/-! ## Decimal digit utilities -/

/-- The little-endian base-10 digits of `n` (empty for `0`); the first argument
is structural fuel, `natDigits` supplies `n` itself which always suffices. -/
def natDigitsRev : ℕ → ℕ → List ℕ
  | 0, _ => []
  | _ + 1, 0 => []
  | fuel + 1, n + 1 => (n + 1) % 10 :: natDigitsRev fuel ((n + 1) / 10)

/-- Little-endian base-10 digits of `n`. -/
def natDigits (n : ℕ) : List ℕ := natDigitsRev n n

/-- Render a big-endian digit list as a string. -/
def digitsStr (l : List ℕ) : String := ⟨l.map Nat.digitChar⟩

/-- Decimal string of a natural number. -/
def natStr (n : ℕ) : String := if n = 0 then "0" else digitsStr (natDigits n).reverse

/-- Decimal string of an integer. -/
def intStr (n : ℤ) : String := (if n < 0 then "-" else "") ++ natStr n.natAbs

/-- Big-endian digits of the fraction value `fp` printed at width `w`, with the
trailing zeros removed. -/
def fracDigits (fp w : ℕ) : List ℕ :=
  List.replicate (w - (natDigits fp).length) 0 ++ ((natDigits fp).dropWhile (fun d => d = 0)).reverse

/-- Fractional part of a fixed-notation decimal string: `.` followed by the
digits of `fp` at width `w` without trailing zeros, or nothing when `fp = 0`. -/
def fracStr (fp w : ℕ) : String := if fp = 0 then "" else "." ++ digitsStr (fracDigits fp w)

/-- Big-endian digits of `n` left-padded with zeros to width `w`. -/
def padDigits (n w : ℕ) : List ℕ :=
  List.replicate (w - (natDigits n).length) 0 ++ (natDigits n).reverse

/-! ## Magnitude (decimal exponent) of a rational -/

/-- `10 ^ k` over ℚ for an integer `k`. -/
def pow10 (k : ℤ) : ℚ := (10 : ℚ) ^ k

/-- Round half away from zero (for nonnegative inputs): `⌊x + 1/2⌋` as ℕ. -/
def roundHalf (x : ℚ) : ℕ := (⌊x + 1 / 2⌋).toNat

/-- The largest `e` with `b * 10 ^ e ≤ a` (for `1 ≤ b ≤ a`); fuel-driven. -/
def expUp : ℕ → ℕ → ℕ → ℕ
  | 0, _, _ => 0
  | fuel + 1, a, b => if a < b * 10 then 0 else expUp fuel a (b * 10) + 1

/-- The smallest `k` with `b ≤ a * 10 ^ k` (for `1 ≤ a`); fuel-driven. -/
def expSearch : ℕ → ℕ → ℕ → ℕ
  | 0, _, _ => 0
  | fuel + 1, a, b => if b ≤ a then 0 else expSearch fuel (a * 10) b + 1

/-- The decimal exponent of a positive rational `x`: the unique `e` with
`10 ^ e ≤ x < 10 ^ (e + 1)` (junk value `0` for `x ≤ 0`). -/
def qexp (x : ℚ) : ℤ :=
  if x.num.toNat = 0 then 0
  else if x.den ≤ x.num.toNat then ((expUp x.num.toNat x.num.toNat x.den : ℕ) : ℤ)
  else -((expSearch x.den x.num.toNat x.den : ℕ) : ℤ)

/-- Mantissa (7 digits) and exponent for exponential notation with 6 fraction
digits, rounding half away from zero and renormalising on overflow. -/
def sig6 (x : ℚ) : ℕ × ℤ :=
  if roundHalf (x * pow10 (6 - qexp x)) = 10 ^ 7 then (10 ^ 6, qexp x + 1)
  else (roundHalf (x * pow10 (6 - qexp x)), qexp x)

/-- Mantissa (10 digits) and exponent for fixed notation at 10 significant
digits, rounding half away from zero and renormalising on overflow. -/
def sig10 (x : ℚ) : ℕ × ℤ :=
  if roundHalf (x * pow10 (9 - qexp x)) = 10 ^ 10 then (10 ^ 9, qexp x + 1)
  else (roundHalf (x * pow10 (9 - qexp x)), qexp x)

/-- Exponent suffix of JS exponential notation, e.g. `+10` or `-7`. -/
def expStr (e : ℤ) : String := (if e < 0 then "-" else "+") ++ natStr e.natAbs

/-- Assemble an exponential-notation string `sgn d.dddddd e±x` from a 7-digit
mantissa `m` and exponent `e`. -/
def sciString (sgn : String) (m : ℕ) (e : ℤ) : String :=
  sgn ++ digitsStr [m / 10 ^ 6] ++ "." ++ digitsStr (padDigits (m % 10 ^ 6) 6) ++ "e" ++ expStr e

/-- Modelled from the spec: the ECMAScript built-in
`Number.prototype.toExponential(6)` used at calculator.tsx line 26
("exponential notation at 6 significant fractional digits"), over the exact
rational model of the value. -/
def toExponential6 (q : ℚ) : String :=
  if q = 0 then "0.000000e+0"
  else sciString (if q < 0 then "-" else "") (sig6 |q|).1 (sig6 |q|).2

/-- Modelled from the spec: the external mathjs `format (value, precision 10)`
collaborator used at calculator.tsx line 30 — "otherwise fixed notation at 10
significant digits" (spec §4.3), with trailing zeros stripped. -/
def mathjsFormat10 (q : ℚ) : String :=
  if q = 0 then "0"
  else if 9 ≤ (sig10 |q|).2 then
    (if q < 0 then "-" else "") ++ natStr ((sig10 |q|).1 * 10 ^ ((sig10 |q|).2 - 9).toNat)
  else if 0 ≤ (sig10 |q|).2 then
    (if q < 0 then "-" else "") ++ natStr ((sig10 |q|).1 / 10 ^ (9 - (sig10 |q|).2).toNat) ++
      fracStr ((sig10 |q|).1 % 10 ^ (9 - (sig10 |q|).2).toNat) (9 - (sig10 |q|).2).toNat
  else (if q < 0 then "-" else "") ++ "0" ++ fracStr (sig10 |q|).1 (9 + (-(sig10 |q|).2).toNat)

/-- Result Formatter, from calculator.tsx lines 21–32 (`formatResult`).
`none` models a non-finite number (the `!isFinite(value)` test); the literals
`1e10` and `1e-6` are modelled by the exact rationals they denote. -/
def formatResult (value : Option ℚ) : String :=
  match value with
  | none => "Error"
  | some v =>
    if pow10 10 ≤ |v| ∨ (|v| < pow10 (-6) ∧ v ≠ 0) then toExponential6 v
    else mathjsFormat10 v

/-! ## Glyph substitution (Evaluator Adapter, first half) -/

/-- Global leftmost non-overlapping replacement, the semantics of the JS
`String.prototype.replace` with a `/…/g` literal pattern; the replacement text
is not rescanned.  Fuel-driven; `replaceAll` supplies the input length, which
suffices because every step consumes at least one character. -/
def replaceAllAux (pat rep : List Char) : ℕ → List Char → List Char
  | 0, cs => cs
  | _ + 1, [] => []
  | fuel + 1, c :: rest =>
    if pat.isPrefixOf (c :: rest) then rep ++ replaceAllAux pat rep fuel (List.drop pat.length (c :: rest))
    else c :: replaceAllAux pat rep fuel rest

/-- Modelled from the spec: JS `s.replace(/pat/g, rep)` for a literal pattern. -/
def replaceAll (s pat rep : String) : String :=
  ⟨replaceAllAux pat.data rep.data s.data.length s.data⟩

/-- The ordered glyph-substitution chain of `calculateResult`
(calculator.tsx lines 39–55), including the no-op `e → e` step. -/
def toMathExpr (expr : String) : String :=
  let s1 := replaceAll expr "×" "*"
  let s2 := replaceAll s1 "÷" "/"
  let s3 := replaceAll s2 "−" "-"
  let s4 := replaceAll s3 "π" "pi"
  let s5 := replaceAll s4 "e" "e"
  let s6 := replaceAll s5 "√" "sqrt"
  let s7 := replaceAll s6 "x²" "^2"
  let s8 := replaceAll s7 "x^y" "^"
  let s9 := replaceAll s8 "sin" "sin"
  let s10 := replaceAll s9 "cos" "cos"
  let s11 := replaceAll s10 "tan" "tan"
  let s12 := replaceAll s11 "ln" "log"
  replaceAll s12 "log" "log10"

/-- Modelled from the spec: JS `String.prototype.trim` (drop whitespace at both
ends), used by the `!expr.trim()` emptiness test. -/
def jsTrim (s : String) : String :=
  ⟨((s.data.dropWhile Char.isWhitespace).reverse.dropWhile Char.isWhitespace).reverse⟩

/-! ## The external evaluator (Evaluator Adapter, second half)

The spec (§6) describes the collaborator as "a black-box numeric expression
evaluator accepting a string in conventional infix syntax … returning a
floating-point number or raising on malformed input".  `JSNum` (`Option ℚ`)
is the value model: `none` is a non-finite number. -/

/-- JS number model: `none` is non-finite (`NaN` / `±Infinity`). -/
abbrev JSNum := Option ℚ

/-- Addition with non-finite propagation. -/
def vAdd : JSNum → JSNum → JSNum
  | some a, some b => some (a + b)
  | _, _ => none

/-- Subtraction with non-finite propagation. -/
def vSub : JSNum → JSNum → JSNum
  | some a, some b => some (a - b)
  | _, _ => none

/-- Multiplication with non-finite propagation. -/
def vMul : JSNum → JSNum → JSNum
  | some a, some b => some (a * b)
  | _, _ => none

/-- Division: division by zero yields a non-finite value (`±Infinity` / `NaN`),
as in the spec's "division semantics that produce non-finite values". -/
def vDiv : JSNum → JSNum → JSNum
  | some a, some b => if b = 0 then none else some (a / b)
  | _, _ => none

/-- Numeric value of a decimal digit character. -/
def digitVal (c : Char) : ℕ := c.toNat - 48

/-- Value of a big-endian list of decimal digit characters. -/
def digitsToNat (l : List Char) : ℕ := l.foldl (fun a c => 10 * a + digitVal c) 0

/-- Identifier characters of the evaluator's function names (`log10`). -/
def isIdentChar (c : Char) : Bool := c.isAlpha || c.isDigit

/-- `some k` when `q = 10 ^ k` exactly, else `none`. -/
def log10Exact (q : ℚ) : Option ℤ :=
  if q.den = 1 then
    let n := q.num.toNat
    let k := (natDigits n).length - 1
    if 0 < q.num ∧ n = 10 ^ k then some (k : ℤ) else none
  else if q.num = 1 then
    let k := (natDigits q.den).length - 1
    if q.den = 10 ^ k then some (-(k : ℤ)) else none
  else none

/-- Modelled from the spec: function application inside the external evaluator
(spec §6 lists `sin, cos, tan, log, log10, sqrt, pi`).  Only `log10` is inside
the modelled fragment, and only at exact powers of ten (the only arguments any
claim evaluates); everything else is outside the model and mapped to
evaluation failure (`none` at the outer level). -/
def applyFn (name : String) (v : JSNum) : Option JSNum :=
  if name = "log10" then
    match v with
    | none => some none
    | some q =>
      if q ≤ 0 then some none
      else match log10Exact q with
        | some k => some (some (k : ℚ))
        | none => none
  else none

/-- Number literals of the evaluator grammar: `digits`, `digits.digits?` or
`.digits`, over the exact rationals. -/
def parseNumber (cs : List Char) : Option (JSNum × List Char) :=
  let intd := cs.takeWhile Char.isDigit
  let r1 := cs.dropWhile Char.isDigit
  match r1 with
  | '.' :: r2 =>
    let frd := r2.takeWhile Char.isDigit
    let r3 := r2.dropWhile Char.isDigit
    if intd.isEmpty && frd.isEmpty then none
    else some (some ((digitsToNat intd : ℚ) + (digitsToNat frd : ℚ) / (10 : ℚ) ^ frd.length), r3)
  | _ => if intd.isEmpty then none else some (some (digitsToNat intd : ℚ), r1)

mutual

/-- `expr := term (('+' | '-') term)*` — fuel-driven recursive descent. -/
def parseExpr : ℕ → List Char → Option (JSNum × List Char)
  | 0, _ => none
  | fuel + 1, cs =>
    match parseTerm fuel cs with
    | none => none
    | some (v, r) => parseExprAux fuel v r

/-- Left-associated additive continuation of `parseExpr`. -/
def parseExprAux : ℕ → JSNum → List Char → Option (JSNum × List Char)
  | 0, _, _ => none
  | fuel + 1, acc, cs =>
    match cs with
    | '+' :: rest =>
      (match parseTerm fuel rest with
       | none => none
       | some (v, r) => parseExprAux fuel (vAdd acc v) r)
    | '-' :: rest =>
      (match parseTerm fuel rest with
       | none => none
       | some (v, r) => parseExprAux fuel (vSub acc v) r)
    | _ => some (acc, cs)

/-- `term := factor (('*' | '/') factor)*`. -/
def parseTerm : ℕ → List Char → Option (JSNum × List Char)
  | 0, _ => none
  | fuel + 1, cs =>
    match parseFactor fuel cs with
    | none => none
    | some (v, r) => parseTermAux fuel v r

/-- Left-associated multiplicative continuation of `parseTerm`. -/
def parseTermAux : ℕ → JSNum → List Char → Option (JSNum × List Char)
  | 0, _, _ => none
  | fuel + 1, acc, cs =>
    match cs with
    | '*' :: rest =>
      (match parseFactor fuel rest with
       | none => none
       | some (v, r) => parseTermAux fuel (vMul acc v) r)
    | '/' :: rest =>
      (match parseFactor fuel rest with
       | none => none
       | some (v, r) => parseTermAux fuel (vDiv acc v) r)
    | _ => some (acc, cs)

/-- `factor := number | '(' expr ')' | ident '(' expr ')'`. -/
def parseFactor : ℕ → List Char → Option (JSNum × List Char)
  | 0, _ => none
  | fuel + 1, cs =>
    match cs with
    | '(' :: rest =>
      (match parseExpr fuel rest with
       | none => none
       | some (v, r) =>
         match r with
         | ')' :: r2 => some (v, r2)
         | _ => none)
    | c :: _ =>
      if c.isDigit || c = '.' then parseNumber cs
      else if c.isAlpha then
        let name := cs.takeWhile isIdentChar
        let rest := cs.dropWhile isIdentChar
        (match rest with
         | '(' :: r2 =>
           (match parseExpr fuel r2 with
            | none => none
            | some (v, r3) =>
              match r3 with
              | ')' :: r4 =>
                (match applyFn ⟨name⟩ v with
                 | none => none
                 | some vv => some (vv, r4))
              | _ => none)
         | _ => none)
      else none
    | [] => none

end

/-- Modelled from the spec (§6): the external mathjs `evaluate` collaborator —
standard infix evaluation over `+ - * /`, parentheses, decimal literals and
`log10`, returning a number (`some`) or raising (`none`).  The fuel
`3 * length + 3` covers the recursion depth of any input. -/
def mathjsEvaluate (s : String) : Option JSNum :=
  match parseExpr (3 * s.data.length + 3) s.data with
  | some (v, []) => some v
  | _ => none

/-- Evaluator Adapter, from calculator.tsx lines 34–62 (`calculateResult`):
empty-after-trim input short-circuits to `"0"`; the glyph chain feeds the
external evaluator; a raise (outer `none`) is caught and mapped to `"Error"`;
otherwise the value is formatted. -/
def calculateResult (expr : String) : String :=
  if jsTrim expr = "" then "0"
  else
    match mathjsEvaluate (toMathExpr expr) with
    | none => "Error"
    | some v => formatResult v

/-! ## Calculator state and Expression Editor operations -/

/-- The calculator state (calculator.tsx lines 6–11, `CalculatorState`).
`memory` is a JS number that is always finite in the program, modelled as ℚ. -/
structure CalculatorState where
  expression : String
  result : String
  memory : ℚ
  hasError : Bool
deriving DecidableEq

/-- The initial state (calculator.tsx lines 14–19). -/
def initialState : CalculatorState :=
  { expression := "", result := "0", memory := 0, hasError := false }

/-- `updateExpression` (lines 64–72): every mutation re-evaluates and stores
the derived `result` / `hasError`. -/
def updateExpression (s : CalculatorState) (newExpr : String) : CalculatorState :=
  { s with
      expression := newExpr,
      result := calculateResult newExpr,
      hasError := calculateResult newExpr == "Error" }

/-- `handleNumber` (lines 74–76). -/
def handleNumber (s : CalculatorState) (num : String) : CalculatorState :=
  updateExpression s (s.expression ++ num)

/-- Modelled from the spec: JS `s.slice(-1)` — the last character as a
one-character string, `""` on the empty string. -/
def lastChar (s : String) : String :=
  match s.data.getLast? with
  | none => ""
  | some c => ⟨[c]⟩

/-- Modelled from the spec: JS `s.slice(0, -1)` — drop the last character. -/
def dropLastChar (s : String) : String := ⟨s.data.dropLast⟩

/-- The four display operator glyphs of lines 82. -/
def operatorGlyphs : List String := ["+", "−", "×", "÷"]

/-- `handleOperator` (lines 78–87): replace a trailing operator instead of
appending when both the last character and the input are operators. -/
def handleOperator (s : CalculatorState) (op : String) : CalculatorState :=
  if operatorGlyphs.contains (lastChar s.expression) && operatorGlyphs.contains op then
    updateExpression s (dropLastChar s.expression ++ op)
  else updateExpression s (s.expression ++ op)

/-- `handleScientificFunction` (lines 89–101). -/
def handleScientificFunction (s : CalculatorState) (func : String) : CalculatorState :=
  if func = "x²" then updateExpression s (s.expression ++ "^2")
  else if func = "x^y" then updateExpression s (s.expression ++ "^")
  else if ["sin", "cos", "tan", "ln", "log", "√"].contains func then
    updateExpression s (s.expression ++ func ++ "(")
  else updateExpression s (s.expression ++ func)

/-- `handleParenthesis` (lines 103–105). -/
def handleParenthesis (s : CalculatorState) (paren : String) : CalculatorState :=
  updateExpression s (s.expression ++ paren)

/-- Modelled from the spec: JS `String.prototype.split` on a character class —
split at every separator character, keeping empty pieces (`""` splits to
`[""]`). -/
def splitChars (p : Char → Bool) : List Char → List (List Char)
  | [] => [[]]
  | c :: rest =>
    if p c then [] :: splitChars p rest
    else
      match splitChars p rest with
      | [] => [[c]]
      | l :: ls => (c :: l) :: ls

/-- The separator class `[+\−×÷]` of line 108 (display glyphs; the ASCII `-`
is not a separator). -/
def isOperatorChar (c : Char) : Bool := c = '+' || c = '−' || c = '×' || c = '÷'

/-- The current numeric segment: the last piece of the split, i.e. the
substring since the last operator (line 108–109, `parts[parts.length - 1]`). -/
def lastSegment (e : String) : List Char := (splitChars isOperatorChar e.data).getLastD []

/-- `handleDecimal` (lines 107–114): append `"."` unless the current numeric
segment already contains a decimal point (then no state update happens). -/
def handleDecimal (s : CalculatorState) : CalculatorState :=
  if (lastSegment s.expression).contains '.' then s
  else updateExpression s (s.expression ++ ".")

/-- `handleBackspace` (lines 116–119). -/
def handleBackspace (s : CalculatorState) : CalculatorState :=
  updateExpression s (dropLastChar s.expression)

/-- `handleClearAll` (lines 121–128): reset expression/result/error, keep
`memory`. -/
def handleClearAll (s : CalculatorState) : CalculatorState :=
  { s with expression := "", result := "0", hasError := false }

/-- `handleCalculate` (lines 130–140): no-op when `hasError`; otherwise
re-evaluate, never writing `"Error"` into the expression. -/
def handleCalculate (s : CalculatorState) : CalculatorState :=
  if s.hasError then s
  else
    { s with
        expression :=
          if calculateResult s.expression == "Error" then s.expression
          else calculateResult s.expression,
        result := calculateResult s.expression,
        hasError := calculateResult s.expression == "Error" }

/-- Modelled from the spec: the ECMAScript built-in `parseFloat` used at line
143 — longest numeric prefix `[+-]? digits? ('.' digits?)? ([eE][+-]?digits)?`,
`none` when no digit is found (`NaN`). -/
def parseFloatJS (s : String) : Option ℚ :=
  let cs := s.data.dropWhile Char.isWhitespace
  let signSplit :=
    match cs with
    | '-' :: r => ((-1 : ℚ), r)
    | '+' :: r => ((1 : ℚ), r)
    | _ => ((1 : ℚ), cs)
  let sgn := signSplit.1
  let cs1 := signSplit.2
  let intd := cs1.takeWhile Char.isDigit
  let r1 := cs1.dropWhile Char.isDigit
  let fracSplit :=
    match r1 with
    | '.' :: rr => (rr.takeWhile Char.isDigit, rr.dropWhile Char.isDigit)
    | _ => (([] : List Char), r1)
  let frd := fracSplit.1
  let r2 := fracSplit.2
  if intd.isEmpty && frd.isEmpty then none
  else
    let base : ℚ := (digitsToNat intd : ℚ) + (digitsToNat frd : ℚ) / (10 : ℚ) ^ frd.length
    let expPart : ℤ :=
      match r2 with
      | 'e' :: rest | 'E' :: rest =>
        (match rest with
         | '-' :: rr =>
           let ds := rr.takeWhile Char.isDigit
           if ds.isEmpty then 0 else -(digitsToNat ds : ℤ)
         | '+' :: rr =>
           let ds := rr.takeWhile Char.isDigit
           if ds.isEmpty then 0 else (digitsToNat ds : ℤ)
         | rr =>
           let ds := rr.takeWhile Char.isDigit
           if ds.isEmpty then 0 else (digitsToNat ds : ℤ))
      | _ => 0
    some (sgn * base * pow10 expPart)

/-- Modelled from the spec: JS `Number.prototype.toString` for the memory
value (line 150, `state.memory.toString()`) — the exact decimal string for
integers, the fixed-notation formatter otherwise. -/
def jsNumberToString (q : ℚ) : String :=
  if q.den = 1 then intStr q.num else mathjsFormat10 q

/-- `handleMemoryFunction` (lines 142–163): `MC` clears memory, `MR` appends
the memory value to the expression, `M+`/`M-` add/subtract the parsed result
when it is a number (`!isNaN(currentResult)`). -/
def handleMemoryFunction (s : CalculatorState) (func : String) : CalculatorState :=
  let currentResult := parseFloatJS s.result
  if func = "MC" then { s with memory := 0 }
  else if func = "MR" then updateExpression s (s.expression ++ jsNumberToString s.memory)
  else if func = "M+" then
    match currentResult with
    | some v => { s with memory := s.memory + v }
    | none => s
  else if func = "M-" then
    match currentResult with
    | some v => { s with memory := s.memory - v }
    | none => s
  else s

/-! ## Input events

The UI (buttons, lines 202–541, and the keyboard handler, lines 166–200)
invokes the handlers with exactly these payloads. -/

/-- The scientific-function buttons. -/
inductive SciFn
  | sin | cos | tan | ln | log | sqrt | square | power
deriving DecidableEq

/-- Payload string passed by the UI for each scientific function. -/
def SciFn.str : SciFn → String
  | .sin => "sin"
  | .cos => "cos"
  | .tan => "tan"
  | .ln => "ln"
  | .log => "log"
  | .sqrt => "√"
  | .square => "x²"
  | .power => "x^y"

/-- The memory buttons. -/
inductive MemFn
  | mc | mr | mplus | mminus
deriving DecidableEq

/-- Payload string passed by the UI for each memory function. -/
def MemFn.str : MemFn → String
  | .mc => "MC"
  | .mr => "MR"
  | .mplus => "M+"
  | .mminus => "M-"

/-- One user input event (button press or mapped key). -/
inductive Event
  | digit (d : Fin 10)
  | op (o : Fin 4)
  | sci (f : SciFn)
  | paren (closing : Bool)
  | dot
  | back
  | clear
  | eq
  | mem (m : MemFn)
deriving DecidableEq

/-- Operator glyph passed by the UI for operator index `o`. -/
def opGlyph (o : Fin 4) : String := operatorGlyphs.getD o.val "+"

/-- Digit string passed by the UI for digit `d`. -/
def digitGlyph (d : Fin 10) : String := ⟨[Nat.digitChar d.val]⟩

/-- Dispatch of one event to its handler, as wired in the UI. -/
def step (s : CalculatorState) : Event → CalculatorState
  | .digit d => handleNumber s (digitGlyph d)
  | .op o => handleOperator s (opGlyph o)
  | .sci f => handleScientificFunction s f.str
  | .paren closing => handleParenthesis s (if closing then ")" else "(")
  | .dot => handleDecimal s
  | .back => handleBackspace s
  | .clear => handleClearAll s
  | .eq => handleCalculate s
  | .mem m => handleMemoryFunction s m.str

/-- The state reached from the initial state by a sequence of events. -/
def run (es : List Event) : CalculatorState := es.foldl step initialState

/-- `result` mirrors the evaluation of the current expression. -/
abbrev resultInv (s : CalculatorState) : Prop := s.result = calculateResult s.expression

/-- `hasError` mirrors `result == "Error"`. -/
abbrev errorFlagInv (s : CalculatorState) : Prop := s.hasError = (s.result == "Error")

/-! ## Arithmetic facts about the exponent search and the mantissa -/

theorem expUp_spec : ∀ fuel a b, 0 < b → b ≤ a → a < b * 10 ^ fuel →
    b * 10 ^ expUp fuel a b ≤ a ∧ a < b * 10 ^ (expUp fuel a b + 1) := by
  intro fuel
  induction fuel with
  | zero =>
    intro a b hb hba hf
    simp only [pow_zero, mul_one] at hf
    omega
  | succ f ih =>
    intro a b hb hba hf
    simp only [expUp]
    by_cases h : a < b * 10
    · simp only [if_pos h, pow_zero, mul_one, pow_one]
      exact ⟨hba, h⟩
    · simp only [if_neg h]
      push_neg at h
      have hf' : a < b * 10 * 10 ^ f := by
        calc a < b * 10 ^ (f + 1) := hf
        _ = b * 10 * 10 ^ f := by ring
      obtain ⟨h1, h2⟩ := ih a (b * 10) (by positivity) h hf'
      constructor
      · calc b * 10 ^ (expUp f a (b * 10) + 1) = b * 10 * 10 ^ expUp f a (b * 10) := by ring
        _ ≤ a := h1
      · calc a < b * 10 * 10 ^ (expUp f a (b * 10) + 1) := h2
        _ = b * 10 ^ (expUp f a (b * 10) + 1 + 1) := by ring

theorem expSearch_spec : ∀ fuel a b, 0 < a → b ≤ a * 10 ^ fuel →
    b ≤ a * 10 ^ expSearch fuel a b ∧ ∀ j < expSearch fuel a b, a * 10 ^ j < b := by
  intro fuel
  induction fuel with
  | zero =>
    intro a b ha hf
    simp only [pow_zero, mul_one] at hf
    simp only [expSearch, pow_zero, mul_one]
    exact ⟨hf, by omega⟩
  | succ f ih =>
    intro a b ha hf
    simp only [expSearch]
    by_cases h : b ≤ a
    · simp only [if_pos h, pow_zero, mul_one]
      exact ⟨h, by omega⟩
    · simp only [if_neg h]
      push_neg at h
      have hf' : b ≤ a * 10 * 10 ^ f := by
        calc b ≤ a * 10 ^ (f + 1) := hf
        _ = a * 10 * 10 ^ f := by ring
      obtain ⟨h1, h2⟩ := ih (a * 10) b (by positivity) hf'
      constructor
      · calc b ≤ a * 10 * 10 ^ expSearch f (a * 10) b := h1
        _ = a * 10 ^ (expSearch f (a * 10) b + 1) := by ring
      · intro j hj
        match j with
        | 0 => simpa using h
        | j + 1 =>
          calc a * 10 ^ (j + 1) = a * 10 * 10 ^ j := by ring
          _ < b := h2 j (by omega)

theorem fuel_lt_pow : ∀ n : ℕ, n < 10 ^ n := by
  intro n
  exact Nat.lt_pow_self (by norm_num) n

theorem roundHalf_lower {y : ℚ} {N : ℕ} (h : (N : ℚ) ≤ y) : N ≤ roundHalf y := by
  have h1 : (N : ℤ) ≤ ⌊y + 1 / 2⌋ := by
    rw [Int.le_floor]
    push_cast
    linarith
  unfold roundHalf
  omega

theorem roundHalf_upper {y : ℚ} {N : ℕ} (h : y < (N : ℚ)) : roundHalf y ≤ N := by
  have h1 : ⌊y + 1 / 2⌋ < (N : ℤ) + 1 := by
    rw [Int.floor_lt]
    push_cast
    linarith
  unfold roundHalf
  omega

theorem roundHalf_natCast (N : ℕ) : roundHalf (N : ℚ) = N := by
  have h1 : ⌊(N : ℚ) + 1 / 2⌋ = (N : ℤ) := by
    rw [Int.floor_eq_iff]
    push_cast
    constructor <;> linarith
  unfold roundHalf
  omega

/-- `qexp` on a positive rational is the decimal exponent:
`10 ^ qexp x ≤ x < 10 ^ (qexp x + 1)`. -/
theorem qexp_spec (x : ℚ) (hx : 0 < x) :
    pow10 (qexp x) ≤ x ∧ x < pow10 (qexp x + 1) := by
  have hnum : 0 < x.num := Rat.num_pos.mpr hx
  set a := x.num.toNat with ha_def
  set b := x.den with hb_def
  have ha : 0 < a := by omega
  have hb : 0 < b := x.pos
  have hcast : ((a : ℤ) : ℚ) = (x.num : ℚ) := by
    congr 1
    omega
  have hxab : x = (a : ℚ) / (b : ℚ) := by
    rw [← Rat.num_div_den x]
    push_cast [← hcast]
    norm_num
  have hbq : (0 : ℚ) < (b : ℚ) := by positivity
  by_cases hba : b ≤ a
  · -- x ≥ 1, positive exponent
    have hq : qexp x = ((expUp a a b : ℕ) : ℤ) := by
      unfold qexp
      rw [← ha_def, ← hb_def, if_neg (by omega), if_pos hba]
    set e := expUp a a b with he_def
    have hfuel : a < b * 10 ^ a :=
      lt_of_lt_of_le (fuel_lt_pow a) (Nat.le_mul_of_pos_left _ hb)
    obtain ⟨h1, h2⟩ := expUp_spec a a b hb hba hfuel
    rw [hq, hxab]
    constructor
    · rw [pow10, zpow_natCast, le_div_iff₀ hbq]
      calc ((10 : ℚ) ^ e) * b = ((b * 10 ^ e : ℕ) : ℚ) := by push_cast; ring
      _ ≤ (a : ℚ) := by exact_mod_cast h1
    · rw [pow10, show ((e : ℤ) + 1) = ((e + 1 : ℕ) : ℤ) by push_cast; ring, zpow_natCast,
        div_lt_iff₀ hbq]
      calc (a : ℚ) < ((b * 10 ^ (e + 1) : ℕ) : ℚ) := by exact_mod_cast h2
      _ = (10 : ℚ) ^ (e + 1) * b := by push_cast; ring
  · -- x < 1, negative exponent
    push_neg at hba
    have hq : qexp x = -((expSearch b a b : ℕ) : ℤ) := by
      unfold qexp
      rw [← ha_def, ← hb_def, if_neg (by omega), if_neg (by omega)]
    set k := expSearch b a b with hk_def
    have hfuel : b ≤ a * 10 ^ b :=
      le_trans (le_of_lt (fuel_lt_pow b)) (Nat.le_mul_of_pos_left _ ha)
    obtain ⟨h1, h2⟩ := expSearch_spec b a b ha hfuel
    rw [← hk_def] at h1 h2
    have hk1 : 0 < k := by
      rcases Nat.eq_zero_or_pos k with h | h
      · rw [h, pow_zero, mul_one] at h1
        omega
      · exact h
    rw [hq, hxab]
    constructor
    · rw [pow10, zpow_neg, zpow_natCast, inv_eq_one_div, div_le_div_iff₀ (by positivity) hbq]
      calc (1 : ℚ) * b = ((b : ℕ) : ℚ) := by ring
      _ ≤ ((a * 10 ^ k : ℕ) : ℚ) := by exact_mod_cast h1
      _ = (a : ℚ) * 10 ^ k := by push_cast; ring
    · have hster : a * 10 ^ (k - 1) < b := h2 (k - 1) (by omega)
      rw [pow10, show (-(k : ℤ) + 1) = -(((k - 1 : ℕ) : ℕ) : ℤ) by omega,
        zpow_neg, zpow_natCast, inv_eq_one_div, div_lt_div_iff₀ hbq (by positivity)]
      calc (a : ℚ) * 10 ^ (k - 1) = ((a * 10 ^ (k - 1) : ℕ) : ℚ) := by push_cast; ring
      _ < ((b : ℕ) : ℚ) := by exact_mod_cast hster
      _ = 1 * (b : ℚ) := by ring

/-! ## Shape of the printed digits -/

theorem str_append_empty (s : String) : s ++ "" = s := by
  apply String.ext
  rw [String.data_append]
  simp

theorem pow10_natCast (w : ℕ) : pow10 (w : ℤ) = ((10 ^ w : ℕ) : ℚ) := by
  unfold pow10
  rw [zpow_natCast]
  push_cast
  ring

theorem pow10_add (a b : ℤ) : pow10 (a + b) = pow10 a * pow10 b := by
  unfold pow10
  rw [zpow_add₀ (by norm_num : (10 : ℚ) ≠ 0)]

theorem pow10_pos (a : ℤ) : 0 < pow10 a := by
  unfold pow10
  exact zpow_pos (by norm_num) a

theorem natDigitsRev_mem_lt : ∀ fuel n, ∀ d ∈ natDigitsRev fuel n, d < 10 := by
  intro fuel
  induction fuel with
  | zero => intro n d hd; simp [natDigitsRev] at hd
  | succ f ih =>
    intro n d hd
    match n with
    | 0 => simp [natDigitsRev] at hd
    | m + 1 =>
      simp only [natDigitsRev, List.mem_cons] at hd
      rcases hd with h | h
      · omega
      · exact ih _ _ h

theorem natDigits_mem_lt (n : ℕ) : ∀ d ∈ natDigits n, d < 10 :=
  natDigitsRev_mem_lt n n

theorem natDigitsRev_length_le : ∀ fuel n w, n < 10 ^ w → (natDigitsRev fuel n).length ≤ w := by
  intro fuel
  induction fuel with
  | zero => intro n w _; simp [natDigitsRev]
  | succ f ih =>
    intro n w hw
    match n with
    | 0 => simp [natDigitsRev]
    | m + 1 =>
      have hw1 : w ≠ 0 := by
        intro h
        rw [h, pow_zero] at hw
        omega
      obtain ⟨w', rfl⟩ := Nat.exists_eq_succ_of_ne_zero hw1
      simp only [natDigitsRev, List.length_cons]
      have hdiv : (m + 1) / 10 < 10 ^ w' := by
        rw [Nat.div_lt_iff_lt_mul (by norm_num)]
        calc m + 1 < 10 ^ (w' + 1) := hw
        _ = 10 ^ w' * 10 := by ring
      have := ih ((m + 1) / 10) w' hdiv
      omega

theorem natDigits_length_le {n w : ℕ} (h : n < 10 ^ w) : (natDigits n).length ≤ w :=
  natDigitsRev_length_le n n w h

theorem padDigits_length {n w : ℕ} (h : n < 10 ^ w) : (padDigits n w).length = w := by
  unfold padDigits
  rw [List.length_append, List.length_replicate, List.length_reverse]
  have := natDigits_length_le h
  omega

theorem digitChar_ne_e : ∀ d, d < 10 → Nat.digitChar d ≠ 'e' := by decide

theorem noE_digitsStr {l : List ℕ} (h : ∀ d ∈ l, d < 10) : 'e' ∉ (digitsStr l).data := by
  intro hmem
  have hmem' : 'e' ∈ l.map Nat.digitChar := hmem
  rw [List.mem_map] at hmem'
  obtain ⟨d, hd, he⟩ := hmem'
  exact digitChar_ne_e d (h d hd) he

theorem noE_natStr (n : ℕ) : 'e' ∉ (natStr n).data := by
  unfold natStr
  split
  · decide
  · exact noE_digitsStr (fun d hd => natDigits_mem_lt n d (List.mem_reverse.mp hd))

theorem fracDigits_mem_lt (fp w : ℕ) : ∀ d ∈ fracDigits fp w, d < 10 := by
  intro d hd
  unfold fracDigits at hd
  rw [List.mem_append] at hd
  rcases hd with h | h
  · have := List.eq_of_mem_replicate h
    omega
  · rw [List.mem_reverse] at h
    exact natDigits_mem_lt fp d ((List.dropWhile_sublist _).subset h)

theorem noE_fracStr (fp w : ℕ) : 'e' ∉ (fracStr fp w).data := by
  unfold fracStr
  split
  · decide
  · intro hmem
    rw [String.data_append, List.mem_append] at hmem
    rcases hmem with h | h
    · simp at h
    · exact noE_digitsStr (fracDigits_mem_lt fp w) h

theorem noE_sign (q : ℚ) : 'e' ∉ (if q < 0 then "-" else "").data := by
  split <;> decide

theorem noE_mathjsFormat10 (q : ℚ) : 'e' ∉ (mathjsFormat10 q).data := by
  unfold mathjsFormat10
  split
  · decide
  · split
    · intro hmem
      rw [String.data_append, List.mem_append] at hmem
      rcases hmem with h | h
      · exact noE_sign q h
      · exact noE_natStr _ h
    · split
      · intro hmem
        rw [String.data_append, String.data_append, List.mem_append, List.mem_append] at hmem
        rcases hmem with (h | h) | h
        · exact noE_sign q h
        · exact noE_natStr _ h
        · exact noE_fracStr _ _ h
      · intro hmem
        rw [String.data_append, String.data_append, List.mem_append, List.mem_append] at hmem
        rcases hmem with (h | h) | h
        · exact noE_sign q h
        · simp at h
        · exact noE_fracStr _ _ h

/-! ## The exponential-branch mantissa is always 7 digits -/

theorem sig6_bounds (x : ℚ) (hx : 0 < x) :
    10 ^ 6 ≤ (sig6 x).1 ∧ (sig6 x).1 < 10 ^ 7 := by
  obtain ⟨hl, hu⟩ := qexp_spec x hx
  set e := qexp x with he
  have hp1 : (0 : ℚ) < pow10 (6 - e) := pow10_pos _
  have hcomb : pow10 e * pow10 (6 - e) = pow10 6 := by
    rw [← pow10_add]
    congr 1
    ring
  have hcomb2 : pow10 (e + 1) * pow10 (6 - e) = pow10 7 := by
    rw [← pow10_add]
    congr 1
    ring
  have hyl : ((10 ^ 6 : ℕ) : ℚ) ≤ x * pow10 (6 - e) := by
    calc ((10 ^ 6 : ℕ) : ℚ) = pow10 6 := (pow10_natCast 6).symm
    _ = pow10 e * pow10 (6 - e) := hcomb.symm
    _ ≤ x * pow10 (6 - e) := mul_le_mul_of_nonneg_right hl (le_of_lt hp1)
  have hyu : x * pow10 (6 - e) < ((10 ^ 7 : ℕ) : ℚ) := by
    calc x * pow10 (6 - e) < pow10 (e + 1) * pow10 (6 - e) := by
          exact mul_lt_mul_of_pos_right hu hp1
    _ = pow10 7 := hcomb2
    _ = ((10 ^ 7 : ℕ) : ℚ) := pow10_natCast 7
  have hml : 10 ^ 6 ≤ roundHalf (x * pow10 (6 - e)) := roundHalf_lower hyl
  have hmu : roundHalf (x * pow10 (6 - e)) ≤ 10 ^ 7 := roundHalf_upper hyu
  unfold sig6
  rw [← he]
  split
  · constructor <;> norm_num
  · rename_i hm
    exact ⟨hml, lt_of_le_of_ne hmu hm⟩

/-! ## Fixed formatting of integers below the threshold -/

theorem rat_den_one {q : ℚ} (h : q.den = 1) : q = (q.num : ℚ) := by
  conv_lhs => rw [← Rat.num_div_den q]
  rw [h]
  norm_num

theorem qexp_natCast (a : ℕ) (ha : a ≠ 0) : qexp (a : ℚ) = (expUp a a 1 : ℤ) := by
  unfold qexp
  rw [Rat.num_natCast, Rat.den_natCast, Int.toNat_natCast]
  rw [if_neg ha, if_pos (by omega)]

theorem mathjsFormat10_intCast (n : ℤ) (h0 : n ≠ 0) (hlt : n.natAbs < 10 ^ 10) :
    mathjsFormat10 (n : ℚ) = intStr n := by
  set a := n.natAbs with ha_def
  have ha : a ≠ 0 := by omega
  have habs : |(n : ℚ)| = (a : ℚ) := by
    rw [ha_def, Int.cast_natAbs, Int.cast_abs]
  set e := expUp a a 1 with he_def
  have hfuel : a < 1 * 10 ^ a := by
    rw [one_mul]
    exact fuel_lt_pow a
  obtain ⟨hel, heu⟩ := expUp_spec a a 1 (by norm_num) (by omega) hfuel
  rw [← he_def, one_mul] at hel heu
  have he9 : e ≤ 9 := by
    by_contra h
    push_neg at h
    have h10 : 10 ^ 10 ≤ 10 ^ e := Nat.pow_le_pow_right (by norm_num) (by omega)
    omega
  have hqe : qexp ((a : ℕ) : ℚ) = (e : ℤ) := by
    rw [qexp_natCast a ha, he_def]
  have hmval : roundHalf ((a : ℚ) * pow10 (9 - (e : ℤ))) = a * 10 ^ (9 - e) := by
    have hcast : (a : ℚ) * pow10 (9 - (e : ℤ)) = ((a * 10 ^ (9 - e) : ℕ) : ℚ) := by
      rw [show (9 - (e : ℤ)) = ((9 - e : ℕ) : ℤ) by omega, pow10_natCast]
      push_cast
      ring
    rw [hcast, roundHalf_natCast]
  have hm_lt : a * 10 ^ (9 - e) < 10 ^ 10 := by
    calc a * 10 ^ (9 - e) < 10 ^ (e + 1) * 10 ^ (9 - e) :=
          Nat.mul_lt_mul_of_lt_of_le heu (le_refl _) (Nat.pos_pow_of_pos _ (by norm_num))
    _ = 10 ^ 10 := by
        rw [← pow_add]
        congr 1
        omega
  have hsig : sig10 |(n : ℚ)| = (a * 10 ^ (9 - e), (e : ℤ)) := by
    unfold sig10
    rw [habs, hqe, hmval, if_neg (by omega)]
  have hq0 : (n : ℚ) ≠ 0 := Int.cast_ne_zero.mpr h0
  have hsign : (if (n : ℚ) < 0 then "-" else "") = (if n < 0 then "-" else "") := by
    by_cases hn : n < 0
    · rw [if_pos (by exact_mod_cast hn), if_pos hn]
    · rw [if_neg (by exact_mod_cast hn), if_neg hn]
  unfold mathjsFormat10
  rw [if_neg hq0, hsig]
  simp only []
  by_cases he : e = 9
  · rw [if_pos (by omega : (9 : ℤ) ≤ (e : ℕ))]
    rw [he]
    norm_num
    unfold intStr
    rw [ha_def]
  · have helt : e < 9 := by omega
    rw [if_neg (by omega : ¬ (9 : ℤ) ≤ (e : ℕ)), if_pos (by omega : (0 : ℤ) ≤ (e : ℕ))]
    have hw : ((9 : ℤ) - (e : ℕ)).toNat = 9 - e := by omega
    rw [hw]
    have hpow : 0 < 10 ^ (9 - e) := Nat.pos_pow_of_pos _ (by norm_num)
    rw [Nat.mul_div_cancel _ hpow, Nat.mul_mod_left]
    unfold fracStr
    rw [if_pos rfl, str_append_empty]
    unfold intStr
    rw [hsign]

/-! ## The last split piece is the maximal operator-free suffix -/

/-- The "substring since the last operator", read directly from the right end
of the expression (the spec's wording for the current numeric segment). -/
def segmentFromRight (e : String) : List Char :=
  (e.data.reverse.takeWhile (fun c => !isOperatorChar c)).reverse

theorem splitChars_ne_nil (p : Char → Bool) : ∀ cs, splitChars p cs ≠ [] := by
  intro cs
  match cs with
  | [] => simp [splitChars]
  | c :: rest =>
    unfold splitChars
    split
    · simp
    · split <;> simp

theorem takeWhile_append_last_false {q : Char → Bool} {c : Char} (hc : q c = false) :
    ∀ xs : List Char, ((xs ++ [c]).takeWhile q) = xs.takeWhile q := by
  intro xs
  induction xs with
  | nil => simp [List.takeWhile_cons, hc]
  | cons x xs ih =>
    simp only [List.cons_append, List.takeWhile_cons]
    split
    · rw [ih]
    · rfl

theorem takeWhile_append_not_all {q : Char → Bool} :
    ∀ xs ys : List Char, (∃ x ∈ xs, q x = false) → ((xs ++ ys).takeWhile q) = xs.takeWhile q := by
  intro xs
  induction xs with
  | nil =>
    rintro ys ⟨x, hx, _⟩
    simp at hx
  | cons a xs ih =>
    intro ys hex
    simp only [List.cons_append, List.takeWhile_cons]
    by_cases ha : q a
    · rw [if_pos ha, if_pos ha]
      obtain ⟨x, hx, hqx⟩ := hex
      rcases List.mem_cons.mp hx with rfl | hx2
      · rw [ha] at hqx
        cases hqx
      · rw [ih ys ⟨x, hx2, hqx⟩]
    · rw [if_neg ha, if_neg ha]

theorem takeWhile_all {q : Char → Bool} :
    ∀ xs : List Char, (∀ x ∈ xs, q x = true) → xs.takeWhile q = xs := by
  intro xs
  induction xs with
  | nil => intro _; rfl
  | cons a xs ih =>
    intro h
    rw [List.takeWhile_cons, if_pos (h a (by simp)), ih (fun x hx => h x (by simp [hx]))]

theorem splitChars_single {p : Char → Bool} :
    ∀ cs l, splitChars p cs = [l] → l = cs ∧ ∀ x ∈ cs, p x = false := by
  intro cs
  induction cs with
  | nil =>
    intro l h
    simp only [splitChars] at h
    rw [List.cons.injEq] at h
    exact ⟨h.1.symm, by simp⟩
  | cons c rest ih =>
    intro l h
    unfold splitChars at h
    by_cases hc : p c
    · rw [if_pos hc] at h
      cases hsp : splitChars p rest with
      | nil => exact absurd hsp (splitChars_ne_nil p rest)
      | cons a as =>
        rw [hsp] at h
        simp at h
    · rw [if_neg hc] at h
      cases hsp : splitChars p rest with
      | nil => exact absurd hsp (splitChars_ne_nil p rest)
      | cons a as =>
        rw [hsp] at h
        cases as with
        | cons b bs => simp at h
        | nil =>
          rw [List.cons.injEq] at h
          obtain ⟨h1, _⟩ := h
          obtain ⟨ha, hall⟩ := ih a hsp
          subst ha
          refine ⟨h1.symm, ?_⟩
          intro x hx
          rcases List.mem_cons.mp hx with rfl | hx2
          · exact Bool.not_eq_true _ ▸ by simpa using hc
          · exact hall x hx2

theorem splitChars_all_false {p : Char → Bool} :
    ∀ cs, (∀ x ∈ cs, p x = false) → splitChars p cs = [cs] := by
  intro cs
  induction cs with
  | nil => intro _; rfl
  | cons c rest ih =>
    intro h
    unfold splitChars
    rw [if_neg (by rw [h c (by simp)]; simp)]
    rw [ih (fun x hx => h x (by simp [hx]))]

theorem getLastD_irrel {α : Type} : ∀ (l : List α), l ≠ [] → ∀ (a b : α), l.getLastD a = l.getLastD b := by
  intro l hl a b
  cases l with
  | nil => exact absurd rfl hl
  | cons x xs => rw [List.getLastD_cons, List.getLastD_cons]

theorem splitChars_getLastD (p : Char → Bool) :
    ∀ cs d, (splitChars p cs).getLastD d = (cs.reverse.takeWhile (fun c => !p c)).reverse := by
  intro cs
  induction cs with
  | nil => intro d; simp [splitChars]
  | cons c rest ih =>
    intro d
    unfold splitChars
    by_cases hc : p c
    · rw [if_pos hc, List.getLastD_cons, ih [], List.reverse_cons,
        takeWhile_append_last_false (by simp [hc])]
    · rw [if_neg hc]
      cases hsp : splitChars p rest with
      | nil => exact absurd hsp (splitChars_ne_nil p rest)
      | cons a as =>
        cases as with
        | nil =>
          obtain ⟨ha, hall⟩ := splitChars_single rest a hsp
          have hall' : ∀ x ∈ rest.reverse ++ [c], (!p x) = true := by
            intro x hx
            rcases List.mem_append.mp hx with h | h
            · rw [hall x (List.mem_reverse.mp h)]
              rfl
            · rcases List.mem_singleton.mp h with rfl
              simp [hc]
          rw [List.reverse_cons, takeWhile_all _ hall']
          simp [ha]
        | cons b bs =>
          have hsep : ∃ x ∈ rest.reverse, (!p x) = false := by
            by_contra hno
            push_neg at hno
            have hfalse : ∀ x ∈ rest, p x = false := by
              intro x hx
              have := hno x (List.mem_reverse.mpr hx)
              simpa using this
            rw [splitChars_all_false rest hfalse] at hsp
            simp at hsp
          rw [List.getLastD_cons,
            getLastD_irrel (b :: bs) (by simp) (c :: a) a,
            show (b :: bs).getLastD a = (a :: b :: bs).getLastD d from
              (List.getLastD_cons a d (b :: bs)).symm,
            ← hsp, ih d, List.reverse_cons, takeWhile_append_not_all _ _ hsep]

/-- The source's split-based "last part" is the maximal operator-free suffix:
the two readings of "the substring since the last operator" agree. -/
theorem lastSegment_eq_segmentFromRight (e : String) :
    lastSegment e = segmentFromRight e := by
  unfold lastSegment segmentFromRight
  rw [splitChars_getLastD isOperatorChar e.data []]

/-! ## Invariant preservation -/

theorem updateExpression_expression (s : CalculatorState) (e : String) :
    (updateExpression s e).expression = e := rfl

theorem updateExpression_result (s : CalculatorState) (e : String) :
    (updateExpression s e).result = calculateResult e := rfl

theorem resultInv_updateExpression (s : CalculatorState) (e : String) :
    resultInv (updateExpression s e) := by
  show (updateExpression s e).result = calculateResult (updateExpression s e).expression
  rw [updateExpression_result, updateExpression_expression]

theorem errorFlagInv_updateExpression (s : CalculatorState) (e : String) :
    errorFlagInv (updateExpression s e) := rfl

theorem errorFlagInv_step (s : CalculatorState) (ev : Event) (h : errorFlagInv s) :
    errorFlagInv (step s ev) := by
  cases ev with
  | digit d => exact errorFlagInv_updateExpression _ _
  | op o =>
    show errorFlagInv (handleOperator s (opGlyph o))
    unfold handleOperator
    split <;> exact errorFlagInv_updateExpression _ _
  | sci f =>
    show errorFlagInv (handleScientificFunction s f.str)
    unfold handleScientificFunction
    split
    · exact errorFlagInv_updateExpression _ _
    · split
      · exact errorFlagInv_updateExpression _ _
      · split <;> exact errorFlagInv_updateExpression _ _
  | paren closing => exact errorFlagInv_updateExpression _ _
  | dot =>
    show errorFlagInv (handleDecimal s)
    unfold handleDecimal
    split
    · exact h
    · exact errorFlagInv_updateExpression _ _
  | back => exact errorFlagInv_updateExpression _ _
  | clear => rfl
  | eq =>
    show errorFlagInv (handleCalculate s)
    unfold handleCalculate
    split
    · exact h
    · rfl
  | mem m =>
    cases m with
    | mc => exact h
    | mr => exact errorFlagInv_updateExpression _ _
    | mplus =>
      show errorFlagInv (handleMemoryFunction s "M+")
      unfold handleMemoryFunction
      rw [if_neg (by decide), if_neg (by decide), if_pos rfl]
      cases hp : parseFloatJS s.result with
      | none => simp only [hp]; exact h
      | some v => simp only [hp]; exact h
    | mminus =>
      show errorFlagInv (handleMemoryFunction s "M-")
      unfold handleMemoryFunction
      rw [if_neg (by decide), if_neg (by decide), if_neg (by decide), if_pos rfl]
      cases hp : parseFloatJS s.result with
      | none => simp only [hp]; exact h
      | some v => simp only [hp]; exact h

theorem errorFlagInv_run (es : List Event) : errorFlagInv (run es) := by
  have key : ∀ (l : List Event) (s : CalculatorState), errorFlagInv s →
      errorFlagInv (l.foldl step s) := by
    intro l
    induction l with
    | nil => intro s h; exact h
    | cons e l ih => intro s h; exact ih _ (errorFlagInv_step s e h)
  exact key es initialState (by decide)

theorem resultInv_step_ne_eq (s : CalculatorState) (ev : Event) (h : resultInv s)
    (hne : ev ≠ Event.eq) : resultInv (step s ev) := by
  cases ev with
  | digit d => exact resultInv_updateExpression _ _
  | op o =>
    show resultInv (handleOperator s (opGlyph o))
    unfold handleOperator
    split <;> exact resultInv_updateExpression _ _
  | sci f =>
    show resultInv (handleScientificFunction s f.str)
    unfold handleScientificFunction
    split
    · exact resultInv_updateExpression _ _
    · split
      · exact resultInv_updateExpression _ _
      · split <;> exact resultInv_updateExpression _ _
  | paren closing => exact resultInv_updateExpression _ _
  | dot =>
    show resultInv (handleDecimal s)
    unfold handleDecimal
    split
    · exact h
    · exact resultInv_updateExpression _ _
  | back => exact resultInv_updateExpression _ _
  | clear =>
    show resultInv (handleClearAll s)
    unfold handleClearAll
    show ("0" : String) = calculateResult ""
    decide
  | eq => exact absurd rfl hne
  | mem m =>
    cases m with
    | mc => exact h
    | mr => exact resultInv_updateExpression _ _
    | mplus =>
      show resultInv (handleMemoryFunction s "M+")
      unfold handleMemoryFunction
      rw [if_neg (by decide), if_neg (by decide), if_pos rfl]
      cases hp : parseFloatJS s.result with
      | none => simp only [hp]; exact h
      | some v => simp only [hp]; exact h
    | mminus =>
      show resultInv (handleMemoryFunction s "M-")
      unfold handleMemoryFunction
      rw [if_neg (by decide), if_neg (by decide), if_neg (by decide), if_pos rfl]
      cases hp : parseFloatJS s.result with
      | none => simp only [hp]; exact h
      | some v => simp only [hp]; exact h

theorem handleCalculate_of_hasError (s : CalculatorState) (h : s.hasError = true) :
    handleCalculate s = s := by
  unfold handleCalculate
  rw [if_pos h]

theorem handleCalculate_keeps_expression (s : CalculatorState)
    (h : calculateResult s.expression = "Error") :
    (handleCalculate s).expression = s.expression := by
  unfold handleCalculate
  split
  · rfl
  · show (if calculateResult s.expression == "Error" then s.expression
      else calculateResult s.expression) = s.expression
    rw [h]
    rfl

theorem resultInv_eq_of_idem (s : CalculatorState) (h : resultInv s)
    (hid : calculateResult (calculateResult s.expression) = calculateResult s.expression) :
    resultInv (step s Event.eq) := by
  show resultInv (handleCalculate s)
  unfold handleCalculate
  split
  · exact h
  · show calculateResult s.expression =
      calculateResult (if calculateResult s.expression == "Error" then s.expression
        else calculateResult s.expression)
    split
    · rfl
    · exact hid.symm

/-! ## The claims -/

/-- Claim C1, counterexample: the expression `"10000000000"` is built only from
digits and evaluates (by standard infix evaluation, here the modelled external
evaluator) to the integer `10 ^ 10`, yet `calculateResult` returns the
exponential-notation string `"1.000000e+10"`, not the decimal string of the
value — the `1e10` threshold of `formatResult` contradicts the claim. -/
theorem claim_C1_counterexample :
    ("10000000000".data.all Char.isDigit = true)
    ∧ mathjsEvaluate (toMathExpr "10000000000") = some (some (10000000000 : ℚ))
    ∧ calculateResult "10000000000" = "1.000000e+10"
    ∧ calculateResult "10000000000" ≠ intStr 10000000000 :=
  ⟨by decide, by decide, by decide, by decide⟩

/-- Claim C1, amended: for every expression over digits, the display operators
and parentheses that the evaluator accepts with an integer value of magnitude
below `10 ^ 10`, `calculateResult` returns the decimal string of that value. -/
theorem claim_C1_amended (s : String) (q : ℚ)
    (hchars : s.data.all (fun c => c.isDigit || isOperatorChar c || c = '(' || c = ')') = true)
    (htrim : jsTrim s ≠ "")
    (heval : mathjsEvaluate (toMathExpr s) = some (some q))
    (hden : q.den = 1) (hsize : q.num.natAbs < 10 ^ 10) :
    calculateResult s = intStr q.num := by
  unfold calculateResult
  rw [if_neg htrim, heval]
  have hq : q = (q.num : ℚ) := rat_den_one hden
  by_cases h0 : q.num = 0
  · have hq0 : q = 0 := by
      rw [hq, h0]
      norm_num
    rw [hq0]
    decide
  · have habs_eq : |q| = ((q.num.natAbs : ℕ) : ℚ) := by
      conv_lhs => rw [hq]
      rw [Int.cast_natAbs, Int.cast_abs]
    have habs_lt : |q| < pow10 10 := by
      rw [habs_eq, show pow10 10 = ((10 ^ 10 : ℕ) : ℚ) from pow10_natCast 10]
      exact_mod_cast hsize
    have habs_ge1 : (1 : ℚ) ≤ |q| := by
      rw [habs_eq]
      exact_mod_cast Nat.one_le_iff_ne_zero.mpr (by omega)
    have hsmall : (1 : ℚ) > pow10 (-6) := by decide
    have hcond : ¬ (pow10 10 ≤ |q| ∨ (|q| < pow10 (-6) ∧ q ≠ 0)) := by
      rintro (h | ⟨h, _⟩)
      · linarith
      · linarith
    show formatResult (some q) = intStr q.num
    simp only [formatResult]
    rw [if_neg hcond]
    conv_lhs => rw [hq]
    exact mathjsFormat10_intCast q.num h0 hsize

/-- Claim C1, witness for the amended statement at the spec's own example:
`2 + 3 × 4` evaluates to `14` and is printed as `"14"`. -/
theorem claim_C1_amended_witness :
    jsTrim "2+3×4" ≠ ""
    ∧ mathjsEvaluate (toMathExpr "2+3×4") = some (some (14 : ℚ))
    ∧ calculateResult "2+3×4" = intStr 14 :=
  ⟨by decide, by decide,
    claim_C1_amended "2+3×4" 14 (by decide) (by decide) (by decide) (by decide) (by decide)⟩

/-- Claim C2: `calculateResult` is total; it returns `"0"` on input that is
empty after trimming, and `"Error"` both when the external evaluator raises
(outer `none`) and when it produces a non-finite value (`some none`); no
failure escapes to the caller. -/
theorem claim_C2 :
    (∀ s : String, jsTrim s = "" → calculateResult s = "0")
    ∧ (∀ s : String, jsTrim s ≠ "" → mathjsEvaluate (toMathExpr s) = none →
        calculateResult s = "Error")
    ∧ (∀ s : String, jsTrim s ≠ "" → mathjsEvaluate (toMathExpr s) = some none →
        calculateResult s = "Error") := by
  refine ⟨?_, ?_, ?_⟩
  · intro s h
    unfold calculateResult
    rw [if_pos h]
  · intro s h1 h2
    unfold calculateResult
    rw [if_neg h1, h2]
  · intro s h1 h2
    unfold calculateResult
    rw [if_neg h1, h2]
    rfl

/-- Claim C2, witness: whitespace input yields `"0"`; a malformed expression
(`"("`) and a division by zero (`"5÷0"`) both yield `"Error"`. -/
theorem claim_C2_witness :
    calculateResult " " = "0"
    ∧ calculateResult "(" = "Error"
    ∧ calculateResult "5÷0" = "Error" :=
  ⟨claim_C2.1 " " (by decide), claim_C2.2.1 "(" (by decide) (by decide),
    claim_C2.2.2 "5÷0" (by decide) (by decide)⟩

/-- Claim C3: `formatResult` maps non-finite input to `"Error"`; on the
exponential side of the magnitude thresholds it returns a sign, a single
leading digit 1–9, exactly six fraction digits and an `e`-exponent; otherwise
it delegates to the fixed-notation formatter, whose output never contains an
`e`.  The four boundary values behave as the spec prescribes. -/
theorem claim_C3 :
    formatResult none = "Error"
    ∧ formatResult (some 9999999999) = "9999999999"
    ∧ formatResult (some 10000000000) = "1.000000e+10"
    ∧ formatResult (some (1 / 10000000)) = "1.000000e-7"
    ∧ formatResult (some (1 / 1000)) = "0.001"
    ∧ (∀ q : ℚ, pow10 10 ≤ |q| ∨ (0 < |q| ∧ |q| < pow10 (-6)) →
        ∃ m e, 10 ^ 6 ≤ m ∧ m < 10 ^ 7 ∧ 1 ≤ m / 10 ^ 6 ∧ m / 10 ^ 6 ≤ 9 ∧
          (padDigits (m % 10 ^ 6) 6).length = 6 ∧
          formatResult (some q) = sciString (if q < 0 then "-" else "") m e)
    ∧ (∀ q : ℚ, ¬ (pow10 10 ≤ |q| ∨ (0 < |q| ∧ |q| < pow10 (-6))) →
        formatResult (some q) = mathjsFormat10 q ∧ 'e' ∉ (formatResult (some q)).data) := by
  refine ⟨by decide, by decide, by decide, by decide, by decide, ?_, ?_⟩
  · intro q hcond
    have hq0 : q ≠ 0 := by
      intro h0
      rcases hcond with h | h
      · rw [h0, abs_zero] at h
        have := pow10_pos 10
        linarith
      · rw [h0, abs_zero] at h
        exact lt_irrefl 0 h.1
    have habs : 0 < |q| := abs_pos.mpr hq0
    have hcond' : pow10 10 ≤ |q| ∨ (|q| < pow10 (-6) ∧ q ≠ 0) := by
      rcases hcond with h | h
      · exact Or.inl h
      · exact Or.inr ⟨h.2, hq0⟩
    obtain ⟨hm1, hm2⟩ := sig6_bounds |q| habs
    refine ⟨(sig6 |q|).1, (sig6 |q|).2, hm1, hm2, ?_, ?_, ?_, ?_⟩
    · rw [Nat.one_le_div_iff (by norm_num)]
      exact hm1
    · have hdiv : (sig6 |q|).1 / 10 ^ 6 < 10 := by
        rw [Nat.div_lt_iff_lt_mul (by norm_num)]
        calc (sig6 |q|).1 < 10 ^ 7 := hm2
        _ = 10 * 10 ^ 6 := by norm_num
      omega
    · exact padDigits_length (Nat.mod_lt _ (by norm_num))
    · simp only [formatResult]
      rw [if_pos hcond']
      unfold toExponential6
      rw [if_neg hq0]
  · intro q hcond
    have hcond' : ¬ (pow10 10 ≤ |q| ∨ (|q| < pow10 (-6) ∧ q ≠ 0)) := by
      rintro (h | h)
      · exact hcond (Or.inl h)
      · exact hcond (Or.inr ⟨abs_pos.mpr h.2, h.1⟩)
    have heq : formatResult (some q) = mathjsFormat10 q := by
      simp only [formatResult]
      rw [if_neg hcond']
    exact ⟨heq, heq ▸ noE_mathjsFormat10 q⟩

/-- Claim C3, witness: the universally quantified branches instantiated at
`10 ^ 10` (exponential side) and `2` (fixed side). -/
theorem claim_C3_witness :
    (∃ m e, 10 ^ 6 ≤ m ∧ m < 10 ^ 7 ∧ 1 ≤ m / 10 ^ 6 ∧ m / 10 ^ 6 ≤ 9 ∧
      (padDigits (m % 10 ^ 6) 6).length = 6 ∧
      formatResult (some (10000000000 : ℚ)) =
        sciString (if (10000000000 : ℚ) < 0 then "-" else "") m e)
    ∧ (formatResult (some (2 : ℚ)) = mathjsFormat10 2
        ∧ 'e' ∉ (formatResult (some (2 : ℚ))).data) :=
  ⟨claim_C3.2.2.2.2.2.1 10000000000 (by decide),
    claim_C3.2.2.2.2.2.2 2 (by decide)⟩

/-- Claim C4: pressing `=` with `hasError` set is a no-op on the whole state;
when re-evaluation fails the old expression is kept; and the `"5÷0"` scenario
reaches `result = "Error"`, `hasError = true`, after which `=` leaves the
expression `"5÷0"` untouched. -/
theorem claim_C4 :
    (∀ s : CalculatorState, s.hasError = true → handleCalculate s = s)
    ∧ (∀ s : CalculatorState, calculateResult s.expression = "Error" →
        (handleCalculate s).expression = s.expression)
    ∧ (run [Event.digit 5, Event.op 3, Event.digit 0]).result = "Error"
    ∧ (run [Event.digit 5, Event.op 3, Event.digit 0]).hasError = true
    ∧ (step (run [Event.digit 5, Event.op 3, Event.digit 0]) Event.eq).expression = "5÷0" :=
  ⟨handleCalculate_of_hasError, handleCalculate_keeps_expression,
    by decide, by decide, by decide⟩

/-- Claim C4, witness: the two universal parts instantiated at concrete
states. -/
theorem claim_C4_witness :
    handleCalculate { expression := "5÷0", result := "Error", memory := 0, hasError := true }
      = { expression := "5÷0", result := "Error", memory := 0, hasError := true }
    ∧ (handleCalculate
        { expression := "1+", result := "0", memory := 0, hasError := false }).expression
      = "1+" :=
  ⟨claim_C4.1 _ rfl, claim_C4.2.1 _ (by decide)⟩

/-- Claim C5: appending a decimal point leaves the state untouched exactly
when the current numeric segment (the last piece of the operator split, which
provably equals the maximal operator-free suffix) already contains a point;
in particular from `"3."` the press is rejected. -/
theorem claim_C5 :
    (∀ s : CalculatorState, '.' ∈ lastSegment s.expression → handleDecimal s = s)
    ∧ (∀ s : CalculatorState,
        ((handleDecimal s).expression = s.expression ↔ '.' ∈ lastSegment s.expression))
    ∧ (∀ e : String, lastSegment e = segmentFromRight e)
    ∧ handleDecimal { expression := "3.", result := "3", memory := 0, hasError := false }
        = { expression := "3.", result := "3", memory := 0, hasError := false } := by
  have hrej : ∀ s : CalculatorState, '.' ∈ lastSegment s.expression → handleDecimal s = s := by
    intro s h
    unfold handleDecimal
    rw [if_pos (by
      show List.contains _ '.' = true
      exact List.elem_eq_true_of_mem h)]
  refine ⟨hrej, ?_, lastSegment_eq_segmentFromRight, hrej _ (by decide)⟩
  intro s
  by_cases hc : '.' ∈ lastSegment s.expression
  · exact iff_of_true (by rw [hrej s hc]) hc
  · apply iff_of_false
    · unfold handleDecimal
      rw [if_neg (by
        intro h
        exact hc (List.mem_of_elem_eq_true h))]
      rw [updateExpression_expression]
      intro h
      have hlen := congrArg String.length h
      rw [String.length_append] at hlen
      have hone : ".".length = 1 := rfl
      omega
    · exact hc

/-- Claim C5, witness: the rejection applied at the `"3."` state. -/
theorem claim_C5_witness :
    handleDecimal { expression := "3.", result := "3.", memory := 1, hasError := false }
      = { expression := "3.", result := "3.", memory := 1, hasError := false } :=
  claim_C5.1 _ (by decide)

/-- Claim C6: when the last character of the expression and the new input are
both operator glyphs, `handleOperator` replaces the last character; otherwise
it appends; from `"5+"` pressing `×` yields `"5×"`. -/
theorem claim_C6 :
    (∀ (s : CalculatorState) (op : String),
        operatorGlyphs.contains (lastChar s.expression) = true →
        operatorGlyphs.contains op = true →
        (handleOperator s op).expression = dropLastChar s.expression ++ op)
    ∧ (∀ (s : CalculatorState) (op : String),
        (operatorGlyphs.contains (lastChar s.expression) && operatorGlyphs.contains op) = false →
        (handleOperator s op).expression = s.expression ++ op)
    ∧ (handleOperator
        { expression := "5+", result := "5", memory := 0, hasError := false } "×").expression
      = "5×" := by
  refine ⟨?_, ?_, by decide⟩
  · intro s op h1 h2
    unfold handleOperator
    rw [if_pos (by rw [h1, h2]; rfl)]
    exact updateExpression_expression _ _
  · intro s op h
    unfold handleOperator
    rw [if_neg (by rw [h]; exact Bool.false_ne_true)]
    exact updateExpression_expression _ _

/-- Claim C6, witness: both branches applied at concrete states. -/
theorem claim_C6_witness :
    (handleOperator
        { expression := "5+", result := "5", memory := 0, hasError := false } "×").expression
      = dropLastChar "5+" ++ "×"
    ∧ (handleOperator
        { expression := "5", result := "5", memory := 0, hasError := false } "+").expression
      = "5" ++ "+" :=
  ⟨claim_C6.1 _ "×" (by decide) (by decide), claim_C6.2.1 _ "+" (by decide)⟩

/-- Claim C7: clear-all resets expression/result/error but keeps `memory`;
`MC` zeroes `memory` and touches nothing else. -/
theorem claim_C7 :
    (∀ s : CalculatorState, handleClearAll s =
      { expression := "", result := "0", memory := s.memory, hasError := false })
    ∧ (∀ s : CalculatorState, handleMemoryFunction s "MC" =
      { expression := s.expression, result := s.result, memory := 0, hasError := s.hasError }) :=
  ⟨fun _ => rfl, fun _ => rfl⟩

/-- Claim C8, counterexample: after typing `9999999999.5` and pressing `=`,
the reachable state has `result = "10000000000"` while evaluating the current
expression gives `"1.000000e+10"` — the claimed invariant
`result = calculateResult expression` fails, because `=` overwrites the
expression with the previous result without re-evaluating it. -/
theorem claim_C8_counterexample :
    (run (List.replicate 10 (Event.digit 9) ++ [Event.dot, Event.digit 5, Event.eq])).result
      = "10000000000"
    ∧ calculateResult
        (run (List.replicate 10 (Event.digit 9) ++
          [Event.dot, Event.digit 5, Event.eq])).expression
      = "1.000000e+10"
    ∧ ¬ resultInv (run (List.replicate 10 (Event.digit 9) ++
        [Event.dot, Event.digit 5, Event.eq])) :=
  ⟨by decide, by decide, by decide⟩

/-- Claim C8, amended: the `hasError ↔ result = "Error"` half of the invariant
holds in every reachable state; every operation other than `=` preserves
(and every re-evaluating operation establishes) `result = calculateResult
expression`; `=` preserves it when `hasError` is set, and otherwise exactly
when re-evaluating the produced result is idempotent — which the
formatting-threshold counterexample shows can fail. -/
theorem claim_C8_amended :
    (∀ es : List Event, errorFlagInv (run es))
    ∧ (∀ (s : CalculatorState) (ev : Event),
        resultInv s → ev ≠ Event.eq → resultInv (step s ev))
    ∧ (∀ s : CalculatorState, s.hasError = true → step s Event.eq = s)
    ∧ (∀ s : CalculatorState, resultInv s →
        calculateResult (calculateResult s.expression) = calculateResult s.expression →
        resultInv (step s Event.eq)) :=
  ⟨errorFlagInv_run, resultInv_step_ne_eq,
    fun s h => handleCalculate_of_hasError s h, resultInv_eq_of_idem⟩

/-- Claim C8, witness: the amended parts instantiated at concrete states. -/
theorem claim_C8_amended_witness :
    errorFlagInv (run [Event.digit 5])
    ∧ resultInv (step initialState (Event.digit 5))
    ∧ step { expression := "5÷0", result := "Error", memory := 0, hasError := true } Event.eq
      = { expression := "5÷0", result := "Error", memory := 0, hasError := true }
    ∧ resultInv
        (step { expression := "2+3", result := "5", memory := 0, hasError := false } Event.eq) :=
  ⟨claim_C8_amended.1 _,
    claim_C8_amended.2.1 initialState (Event.digit 5) (by decide) (by decide),
    claim_C8_amended.2.2.1 _ rfl,
    claim_C8_amended.2.2.2 _ (by decide) (by decide)⟩

/-- Claim C9: the substitution chain rewrites `ln` to `log` and then every
`log` to `log10`, so the `ln` button's token is evaluated as the base-10
logarithm: `ln(100)` becomes `log10(100)` and prints `"2"`; the `ln` button
itself appends `"ln("`. -/
theorem claim_C9 :
    toMathExpr "ln(100)" = "log10(100)"
    ∧ mathjsEvaluate "log10(100)" = some (some 2)
    ∧ calculateResult "ln(100)" = "2"
    ∧ (∀ s : CalculatorState,
        (handleScientificFunction s "ln").expression = s.expression ++ "ln(") := by
  refine ⟨by decide, by decide, by decide, ?_⟩
  intro s
  unfold handleScientificFunction
  rw [if_neg (by decide), if_neg (by decide), if_pos (by decide),
    updateExpression_expression, String.append_assoc]
  rfl

/-- Claim C10: when the displayed result does not parse as a number
(in particular `"Error"`), `M+` and `M-` leave the whole state unchanged;
when it parses to `v`, they add/subtract `v` to/from `memory` and change
nothing else. -/
theorem claim_C10 :
    parseFloatJS "Error" = none
    ∧ (∀ s : CalculatorState, parseFloatJS s.result = none →
        handleMemoryFunction s "M+" = s ∧ handleMemoryFunction s "M-" = s)
    ∧ (∀ (s : CalculatorState) (v : ℚ), parseFloatJS s.result = some v →
        handleMemoryFunction s "M+" = { s with memory := s.memory + v }
        ∧ handleMemoryFunction s "M-" = { s with memory := s.memory - v }) := by
  refine ⟨by decide, ?_, ?_⟩
  · intro s h
    constructor
    · unfold handleMemoryFunction
      rw [if_neg (by decide), if_neg (by decide), if_pos rfl]
      simp only [h]
    · unfold handleMemoryFunction
      rw [if_neg (by decide), if_neg (by decide), if_neg (by decide), if_pos rfl]
      simp only [h]
  · intro s v h
    constructor
    · unfold handleMemoryFunction
      rw [if_neg (by decide), if_neg (by decide), if_pos rfl]
      simp only [h]
    · unfold handleMemoryFunction
      rw [if_neg (by decide), if_neg (by decide), if_neg (by decide), if_pos rfl]
      simp only [h]

/-- Claim C10, witness: `M+` on an `"Error"` result is a no-op; on result
`"3"` it adds 3 to the memory. -/
theorem claim_C10_witness :
    handleMemoryFunction
        { expression := "", result := "Error", memory := 5, hasError := true } "M+"
      = { expression := "", result := "Error", memory := 5, hasError := true }
    ∧ handleMemoryFunction
        { expression := "", result := "3", memory := 2, hasError := false } "M+"
      = { expression := "", result := "3", memory := 5, hasError := false } := by
  constructor
  · exact (claim_C10.2.1 _ (by decide)).1
  · have h := (claim_C10.2.2
      { expression := "", result := "3", memory := 2, hasError := false } 3 (by decide)).1
    rw [h]
    decide

end CalcSpec
